import Mathlib

/-!
Shallow embedding of the Risp interpreter (`src/main.rs`): a tokenizer,
a recursive-descent parser, an environment of builtin operators, and a
tree-walking evaluator over a single tagged value type.

Rust `f64` values are modelled by `F64`: finite values are kept as exact
rationals, with explicit `inf`, `neginf` and `nan` tags carrying the IEEE
comparison/propagation rules used by the builtins.  No claim below depends
on rounding, so finite arithmetic is exact.
-/

/-- Model of Rust's `f64`: a finite value (kept exact as a rational), the two
infinities, or NaN. -/
inductive F64 where
  | finite : ℚ → F64
  | inf : F64
  | neginf : F64
  | nan : F64
deriving DecidableEq

/-- IEEE negation on the model. -/
def F64.neg : F64 → F64
  | .finite q => .finite (-q)
  | .inf => .neginf
  | .neginf => .inf
  | .nan => .nan

/-- IEEE addition on the model (exact on finite values). -/
def F64.add : F64 → F64 → F64
  | .nan, _ => .nan
  | _, .nan => .nan
  | .inf, .neginf => .nan
  | .neginf, .inf => .nan
  | .inf, _ => .inf
  | _, .inf => .inf
  | .neginf, _ => .neginf
  | _, .neginf => .neginf
  | .finite a, .finite b => .finite (a + b)

/-- IEEE subtraction, `a - b = a + (-b)`. -/
def F64.sub (a b : F64) : F64 := F64.add a (F64.neg b)

/-- IEEE equality test (`==` on `f64`): NaN compares unequal to everything. -/
def F64.beq : F64 → F64 → Bool
  | .nan, _ => false
  | _, .nan => false
  | .inf, .inf => true
  | .inf, _ => false
  | _, .inf => false
  | .neginf, .neginf => true
  | .neginf, _ => false
  | _, .neginf => false
  | .finite a, .finite b => a == b

/-- IEEE strict less-than on the model: false whenever NaN is involved. -/
def F64.blt : F64 → F64 → Bool
  | .nan, _ => false
  | _, .nan => false
  | .neginf, .neginf => false
  | .neginf, _ => true
  | _, .neginf => false
  | .inf, _ => false
  | .finite _, .inf => true
  | .finite a, .finite b => decide (a < b)

/-- IEEE greater-than (`a > b` in Rust). -/
def F64.bgt (a b : F64) : Bool := F64.blt b a

/-- IEEE less-or-equal: false whenever NaN is involved. -/
def F64.ble (a b : F64) : Bool := F64.blt a b || F64.beq a b

/-- IEEE greater-or-equal (`a >= b` in Rust). -/
def F64.bge (a b : F64) : Bool := F64.ble b a

/-- The error type: `enum RispErr { Reason(String) }`. -/
inductive RispErr where
  | Reason : String → RispErr
deriving DecidableEq

/-- The seven builtin function pointers the program ever creates (all in
`default_env`).  Rust's `Func` variant stores a raw `fn` pointer; a function
cannot appear negatively in a Lean inductive, so the pointer is
defunctionalised into this enumeration, interpreted by `applyFunc` below. -/
inductive RispFunc where
  | addF : RispFunc
  | subF : RispFunc
  | eqF : RispFunc
  | gtF : RispFunc
  | ltF : RispFunc
  | geF : RispFunc
  | leF : RispFunc
deriving DecidableEq

/-- The expression/value type `enum RispExp`; `Func` carries (the
defunctionalised code of) a native builtin
`fn(&[RispExp]) -> Result<RispExp, RispErr>`. -/
inductive RispExp where
  | Bool : Bool → RispExp
  | Symbol : String → RispExp
  | Number : F64 → RispExp
  | List : List RispExp → RispExp
  | Func : RispFunc → RispExp

/-- `struct RispEnv { data: HashMap<String, RispExp> }`, modelled as an
association list: `insert` prepends, lookup takes the first match, which
agrees with `HashMap` on the distinct builtin keys. -/
structure RispEnv where
  data : List (String × RispExp)

/-- `env.data.get(k)`. -/
def RispEnv.get (env : RispEnv) (k : String) : Option RispExp :=
  env.data.lookup k

/-- Whether an expression is a `Number`. -/
def isNumber : RispExp → Bool
  | .Number _ => true
  | _ => false

/-- Whether an expression is a `Func`. -/
def isFunc : RispExp → Bool
  | .Func _ => true
  | _ => false

/-- The numeric value of a digit string, most significant first. -/
def digitsToNat (ds : List Char) : Nat :=
  ds.foldl (fun n c => 10 * n + (c.toNat - 48)) 0

/-- After the mantissa, the optional exponent part of a float literal:
`(e|E) sign? digit+`, which must consume the rest of the token. -/
def parseExpPart (m : ℚ) (cs : List Char) : Option ℚ :=
  match cs with
  | [] => some m
  | e :: r =>
    if e = 'e' ∨ e = 'E' then
      let (esign, r2) : ℤ × List Char :=
        match r with
        | '+' :: t => (1, t)
        | '-' :: t => (-1, t)
        | t => (1, t)
      let ds := r2.takeWhile Char.isDigit
      let rest := r2.dropWhile Char.isDigit
      if ds.isEmpty ∨ ¬rest.isEmpty then none
      else some (m * (10 : ℚ) ^ (esign * (digitsToNat ds : ℤ)))
    else none

/-- The unsigned-number part of Rust's float grammar:
`digit+ ('.' digit*)? exp?  |  '.' digit+ exp?`, whole input consumed. -/
def parseF64Core (cs : List Char) : Option ℚ :=
  let ip := cs.takeWhile Char.isDigit
  let r1 := cs.dropWhile Char.isDigit
  match r1 with
  | '.' :: r2 =>
    let fp := r2.takeWhile Char.isDigit
    let r3 := r2.dropWhile Char.isDigit
    if ip.isEmpty ∧ fp.isEmpty then none
    else parseExpPart ((digitsToNat (ip ++ fp) : ℚ) / (10 : ℚ) ^ fp.length) r3
  | _ => if ip.isEmpty then none else parseExpPart (digitsToNat ip : ℚ) r1

/-- Model of `token.parse::<f64>()` (Rust's documented `FromStr` grammar):
optional sign, then case-insensitive `inf`/`infinity`/`nan` or a decimal
number with optional exponent.  Finite values are kept exact. -/
def parseF64 (s : String) : Option F64 :=
  match s.data with
  | [] => none
  | c :: rest0 =>
    let (neg, cs) : Bool × List Char :=
      if c = '+' then (false, rest0)
      else if c = '-' then (true, rest0)
      else (false, c :: rest0)
    let low := cs.map Char.toLower
    if low = "inf".data ∨ low = "infinity".data then
      some (if neg then .neginf else .inf)
    else if low = "nan".data then some .nan
    else
      match parseF64Core cs with
      | some q => some (.finite (if neg then -q else q))
      | none => none

/-- `parse_atom`: `"true"`/`"false"` are boolean literals, a token the f64
parser accepts is a `Number`, anything else a `Symbol`. -/
def parse_atom (token : String) : RispExp :=
  if token = "true" then .Bool true
  else if token = "false" then .Bool false
  else
    match parseF64 token with
    | some v => .Number v
    | none => .Symbol token

/-- Rust's `char::is_whitespace` (the Unicode White_Space property), which
`str::split_whitespace` splits on. -/
def isRustWs (c : Char) : Bool :=
  [9, 10, 11, 12, 13, 32, 133, 160, 5760, 8192, 8193, 8194, 8195, 8196,
    8197, 8198, 8199, 8200, 8201, 8202, 8232, 8233, 8239, 8287, 12288].contains c.toNat

/-- The padding step of `tokenize`: `(` and `)` are replaced by themselves
surrounded with spaces (`replace("(", " ( ")` and the same for `)`). -/
def padChar (c : Char) : List Char :=
  if c = '(' then [' ', '(', ' ']
  else if c = ')' then [' ', ')', ' ']
  else [c]

/-- `split_whitespace`: split on whitespace runs, dropping empty pieces;
`acc` holds the current word reversed. -/
def splitWsAux : List Char → List Char → List String
  | [], acc => if acc.isEmpty then [] else [String.mk acc.reverse]
  | c :: cs, acc =>
    if isRustWs c then
      if acc.isEmpty then splitWsAux cs [] else String.mk acc.reverse :: splitWsAux cs []
    else splitWsAux cs (c :: acc)

/-- Split a character list on whitespace runs. -/
def splitWs (s : List Char) : List String := splitWsAux s []

/-- `tokenize`: pad parentheses with spaces, then split on whitespace. -/
def tokenize (expr : String) : List String :=
  splitWs (expr.data.flatMap padChar)

/-- `parse_single_float`: a `Number` yields its value, anything else the
error `expected a number`. -/
def parse_single_float : RispExp → Except RispErr F64
  | .Number num => .ok num
  | _ => .error (.Reason "expected a number")

/-- `parse_list_of_floats`: `args.iter().map(parse_single_float).collect()`,
left-to-right, stopping at the first error. -/
def parse_list_of_floats : List RispExp → Except RispErr (List F64)
  | [] => .ok []
  | x :: xs => do
    let v ← parse_single_float x
    let vs ← parse_list_of_floats xs
    .ok (v :: vs)

/-- The inner chain check `f` of the `ensure_tonicity!` macro: the relation
holds between `prev` and the head, and so on down the list. -/
def tonicityChain (check : F64 → F64 → Bool) : F64 → List F64 → Bool
  | _, [] => true
  | prev, x :: xs => check prev x && tonicityChain check x xs

/-- The body `ensure_tonicity!` expands to: coerce all arguments to floats,
require at least one, then run the chain check. -/
def tonicity (check : F64 → F64 → Bool) (args : List RispExp) :
    Except RispErr RispExp := do
  let floats ← parse_list_of_floats args
  match floats with
  | [] => .error (.Reason "expected at least one number")
  | first :: rest => .ok (.Bool (tonicityChain check first rest))

/-- The `+` builtin: sum of all arguments, folded from `0.0`. -/
def plusFn (args : List RispExp) : Except RispErr RispExp := do
  let floats ← parse_list_of_floats args
  .ok (.Number (floats.foldl F64.add (.finite 0)))

/-- The `-` builtin: first argument minus the sum of the rest (the source
spells its error `expexted at least one number`). -/
def minusFn (args : List RispExp) : Except RispErr RispExp := do
  let floats ← parse_list_of_floats args
  match floats with
  | [] => .error (.Reason "expexted at least one number")
  | first :: rest => .ok (.Number (F64.sub first (rest.foldl F64.add (.finite 0))))

/-- Interpretation of the defunctionalised builtin pointers: exactly the
closures `default_env` installs in the source. -/
def applyFunc : RispFunc → List RispExp → Except RispErr RispExp
  | .addF, args => plusFn args
  | .subF, args => minusFn args
  | .eqF, args => tonicity F64.beq args
  | .gtF, args => tonicity F64.bgt args
  | .ltF, args => tonicity F64.blt args
  | .geF, args => tonicity F64.bge args
  | .leF, args => tonicity F64.ble args

/-- `default_env`: the builtin symbol table `+ - = > < >= <=`. -/
def default_env : RispEnv :=
  ⟨[("+", .Func .addF), ("-", .Func .subF), ("=", .Func .eqF),
    (">", .Func .gtF), ("<", .Func .ltF), (">=", .Func .geF),
    ("<=", .Func .leF)]⟩

mutual

/-- `parse`: take the first token; `(` opens a sequence, `)` fails (the
source spells the error `unexpexted ')'`), anything else is an atom.  The
remaining tokens are returned together with a bound witnessing that at
least one token was consumed (this is what Rust's slice reborrowing
guarantees; it justifies termination of `read_seq`). -/
def parse : (tokens : List String) →
    Except RispErr (RispExp × {rest : List String // rest.length < tokens.length})
  | [] => .error (.Reason "could not get token")
  | token :: rest =>
    if token = "(" then
      match read_seq [] rest with
      | .error e => .error e
      | .ok (exp, ⟨r, hr⟩) => .ok (exp, ⟨r, by simp only [List.length_cons]; omega⟩)
    else if token = ")" then .error (.Reason "unexpexted ')'")
    else .ok (parse_atom token, ⟨rest, by simp only [List.length_cons]; omega⟩)
termination_by tokens => (tokens.length, 0)

/-- `read_seq`: collect expressions until the matching `)`; `res` is the
accumulator of the source's loop. -/
def read_seq : (res : List RispExp) → (xs : List String) →
    Except RispErr (RispExp × {rest : List String // rest.length < xs.length})
  | _, [] => .error (.Reason "could not find closing ')'")
  | res, next_token :: rest =>
    if next_token = ")" then .ok (.List res, ⟨rest, by simp only [List.length_cons]; omega⟩)
    else
      match parse (next_token :: rest) with
      | .error e => .error e
      | .ok (exp, ⟨new_xs, h⟩) =>
        match read_seq (res ++ [exp]) new_xs with
        | .error e => .error e
        | .ok (out, ⟨r, hr⟩) => .ok (out, ⟨r, by simp only [List.length_cons] at *; omega⟩)
termination_by _ xs => (xs.length, 1)

end

/-- `parse` with the termination bound erased. -/
def parseOut (tokens : List String) : Except RispErr (RispExp × List String) :=
  match parse tokens with
  | .error e => .error e
  | .ok (exp, r) => .ok (exp, r.val)

/-- `read_seq` with the termination bound erased. -/
def read_seqOut (res : List RispExp) (xs : List String) :
    Except RispErr (RispExp × List String) :=
  match read_seq res xs with
  | .error e => .error e
  | .ok (exp, r) => .ok (exp, r.val)

mutual

/-- `eval`.  Rust passes the environment by `&mut`; the embedding threads it
explicitly, returning the environment alongside the result, so that the
spec's frame claims are about the function and not about the encoding. -/
def eval : RispExp → RispEnv → (Except RispErr RispExp) × RispEnv
  | .Bool a, env => (.ok (.Bool a), env)
  | .Symbol k, env =>
    match env.get k with
    | some x => (.ok x, env)
    | none => (.error (.Reason ("unexpected symbol k='" ++ k ++ "'")), env)
  | .Number n, env => (.ok (.Number n), env)
  | .List list, env =>
    match list with
    | [] => (.error (.Reason "expeceted a non-empty list"), env)
    | first_form :: arg_forms =>
      match eval first_form env with
      | (.error e, env1) => (.error e, env1)
      | (.ok first_eval, env1) =>
        match first_eval with
        | .Func f =>
          match evalArgs arg_forms env1 with
          | (.error e, env2) => (.error e, env2)
          | (.ok args_eval, env2) => (applyFunc f args_eval, env2)
        | _ => (.error (.Reason "first form must be a function"), env1)
  | .Func _, env => (.error (.Reason "unexpected form"), env)

/-- The argument pass `arg_forms.iter().map(|x| eval(x, env)).collect()`:
left-to-right, stopping at the first error. -/
def evalArgs : List RispExp → RispEnv → (Except RispErr (List RispExp)) × RispEnv
  | [], env => (.ok [], env)
  | x :: xs, env =>
    match eval x env with
    | (.error e, env1) => (.error e, env1)
    | (.ok v, env1) =>
      match evalArgs xs env1 with
      | (.error e, env2) => (.error e, env2)
      | (.ok vs, env2) => (.ok (v :: vs), env2)

end

/-- `parse_and_eval`: tokenize, parse one expression (dropping leftover
tokens), evaluate. -/
def parse_and_eval (expr : String) (env : RispEnv) :
    (Except RispErr RispExp) × RispEnv :=
  match parse (tokenize expr) with
  | .error e => (.error e, env)
  | .ok (parsed_exp, _) => eval parsed_exp env

/-- The character of a single decimal digit. -/
def digitCharOf (n : Nat) : Char := Char.ofNat (48 + n)

/-- Decimal digits of a natural number, most significant first (`fuel`
bounds the recursion; `natToChars` supplies enough). -/
def natToCharsAux : Nat → Nat → List Char
  | 0, _ => []
  | fuel+1, n =>
    if n < 10 then [digitCharOf n]
    else natToCharsAux fuel (n / 10) ++ [digitCharOf (n % 10)]

/-- Decimal digits of a natural number. -/
def natToChars (n : Nat) : List Char := natToCharsAux (n + 1) n

/-- Decimal expansion of the fractional part `0 ≤ q < 1`, one digit per
step, stopping at zero or when the fuel runs out. -/
def fracDigits (fuel : Nat) (q : ℚ) : List Char :=
  match fuel with
  | 0 => []
  | fuel'+1 =>
    if q = 0 then []
    else digitCharOf (q * 10).floor.toNat :: fracDigits fuel' (q * 10 - ((q * 10).floor : ℚ))

/-- Decimal text of an exact rational, modelling `f64::to_string` on the
finite values of the model: sign, integer part, and the fractional digits
when nonzero (Rust prints integral floats without a decimal point). -/
def renderRat (q : ℚ) : String :=
  let a := if q < 0 then -q else q
  let ipart := a.floor
  let ds := fracDigits 1200 (a - (ipart : ℚ))
  (if q < 0 then "-" else "") ++ String.mk (natToChars ipart.toNat) ++
    (if ds.isEmpty then "" else "." ++ String.mk ds)

/-- `f64` `Display`: `inf`, `-inf`, `NaN`, or the decimal text. -/
def renderF64 : F64 → String
  | .finite q => renderRat q
  | .inf => "inf"
  | .neginf => "-inf"
  | .nan => "NaN"

mutual

/-- The `fmt::Display` rendering: booleans and numbers as their text, a
symbol as itself, a list as the comma-joined renderings in parentheses. -/
def renderExp : RispExp → String
  | .Bool a => if a then "true" else "false"
  | .Symbol s => s
  | .Number n => renderF64 n
  | .List list => "(" ++ String.intercalate "," (renderList list) ++ ")"
  | .Func _ => "Function \x7b\x7d"

/-- `list.iter().map(|x| x.to_string()).collect()`. -/
def renderList : List RispExp → List String
  | [] => []
  | x :: xs => renderExp x :: renderList xs

end

/-- The structural nesting of an expression: atoms erased to leaves,
lists to nodes. -/
inductive Shape where
  | leaf : Shape
  | node : List Shape → Shape

mutual

/-- The structural nesting (element order and grouping) of an expression. -/
def shape : RispExp → Shape
  | .List l => .node (shapeList l)
  | _ => .leaf

/-- Shapes of a list of expressions. -/
def shapeList : List RispExp → List Shape
  | [] => []
  | x :: xs => shape x :: shapeList xs

end

/-- A character that does not interact with the tokenizer: not whitespace,
not a parenthesis. -/
def safeChar (c : Char) : Bool := !isRustWs c && !(c = '(') && !(c = ')')

/-- A string that survives tokenization as a single token: nonempty,
no whitespace, no parentheses. -/
def atomStrOk (s : String) : Bool :=
  !s.data.isEmpty && s.data.all safeChar

/-- A token `tokenize` can produce: a parenthesis, or a safe atom string. -/
def tokenOk (t : String) : Bool := t = "(" || t = ")" || atomStrOk t

mutual

/-- Every symbol of the expression is a safe single token and no `Func`
value occurs (both hold of every parser output). -/
def goodAtoms : RispExp → Bool
  | .Bool _ => true
  | .Number _ => true
  | .Symbol s => atomStrOk s
  | .List l => goodAtomsList l
  | .Func _ => false

/-- `goodAtoms` over a list. -/
def goodAtomsList : List RispExp → Bool
  | [] => true
  | x :: xs => goodAtoms x && goodAtomsList xs

end

mutual

/-- Every list of the expression has at most one element. -/
def smallLists : RispExp → Bool
  | .List l => decide (l.length ≤ 1) && smallListsList l
  | _ => true

/-- `smallLists` over a list. -/
def smallListsList : List RispExp → Bool
  | [] => true
  | x :: xs => smallLists x && smallListsList xs

end

/-! Equation lemmas for the well-founded `parse`/`read_seq` pair, stated on
the bound-erased wrappers, plus the token-consumption bound itself. -/

theorem parseOut_nil : parseOut [] = .error (.Reason "could not get token") := by
  unfold parseOut parse
  rfl

theorem parseOut_close (rest : List String) :
    parseOut (")" :: rest) = .error (.Reason "unexpexted ')'") := by
  unfold parseOut parse
  rfl

theorem parseOut_open (rest : List String) :
    parseOut ("(" :: rest) = read_seqOut [] rest := by
  unfold parseOut read_seqOut parse
  simp only [reduceIte]
  cases h : read_seq [] rest with
  | error e => rfl
  | ok p => rcases p with ⟨exp, ⟨r, hr⟩⟩; rfl

theorem parseOut_atom (t : String) (rest : List String) (h1 : t ≠ "(") (h2 : t ≠ ")") :
    parseOut (t :: rest) = .ok (parse_atom t, rest) := by
  unfold parseOut parse
  simp [h1, h2]

theorem read_seqOut_nil (res : List RispExp) :
    read_seqOut res [] = .error (.Reason "could not find closing ')'") := by
  unfold read_seqOut read_seq
  rfl

theorem read_seqOut_close (res : List RispExp) (rest : List String) :
    read_seqOut res (")" :: rest) = .ok (.List res, rest) := by
  unfold read_seqOut read_seq
  rfl

theorem read_seqOut_cons (res : List RispExp) (t : String) (rest : List String)
    (h : t ≠ ")") :
    read_seqOut res (t :: rest) =
      match parseOut (t :: rest) with
      | .error e => .error e
      | .ok (exp, new_xs) => read_seqOut (res ++ [exp]) new_xs := by
  conv_lhs => unfold read_seqOut read_seq
  simp only [h, reduceIte, parseOut]
  cases hp : parse (t :: rest) with
  | error e => rfl
  | ok p =>
    rcases p with ⟨exp, ⟨new_xs, hn⟩⟩
    simp only [read_seqOut]
    cases hr : read_seq (res ++ [exp]) new_xs with
    | error e => rfl
    | ok q => rcases q with ⟨out, ⟨r, hr2⟩⟩; rfl

theorem parseOut_length {xs : List String} {e : RispExp} {r : List String}
    (h : parseOut xs = .ok (e, r)) : r.length < xs.length := by
  unfold parseOut at h
  cases hp : parse xs with
  | error err => rw [hp] at h; cases h
  | ok p =>
    rcases p with ⟨exp, ⟨rv, hrv⟩⟩
    rw [hp] at h
    simp only [Except.ok.injEq, Prod.mk.injEq] at h
    obtain ⟨-, h2⟩ := h
    subst h2
    exact hrv

theorem parse_and_eval_eq (expr : String) (env : RispEnv) :
    parse_and_eval expr env =
      match parseOut (tokenize expr) with
      | .error e => (.error e, env)
      | .ok (exp, _) => eval exp env := by
  unfold parse_and_eval parseOut
  cases hp : parse (tokenize expr) with
  | error e => rfl
  | ok p => rcases p with ⟨exp, ⟨r, hr⟩⟩; rfl

/-! Equation lemmas for `eval`/`evalArgs` (convenient rewrite forms). -/

theorem eval_bool (a : Bool) (env : RispEnv) :
    eval (.Bool a) env = (.ok (.Bool a), env) := rfl

theorem eval_symbol (k : String) (env : RispEnv) :
    eval (.Symbol k) env =
      match env.get k with
      | some x => (.ok x, env)
      | none => (.error (.Reason ("unexpected symbol k='" ++ k ++ "'")), env) := rfl

theorem eval_number (n : F64) (env : RispEnv) :
    eval (.Number n) env = (.ok (.Number n), env) := rfl

theorem eval_funcexp (f : RispFunc) (env : RispEnv) :
    eval (.Func f) env = (.error (.Reason "unexpected form"), env) := rfl

theorem eval_list_nil (env : RispEnv) :
    eval (.List []) env = (.error (.Reason "expeceted a non-empty list"), env) := rfl

theorem eval_list_cons (first_form : RispExp) (arg_forms : List RispExp) (env : RispEnv) :
    eval (.List (first_form :: arg_forms)) env =
      match eval first_form env with
      | (.error e, env1) => (.error e, env1)
      | (.ok first_eval, env1) =>
        match first_eval with
        | .Func f =>
          match evalArgs arg_forms env1 with
          | (.error e, env2) => (.error e, env2)
          | (.ok args_eval, env2) => (applyFunc f args_eval, env2)
        | _ => (.error (.Reason "first form must be a function"), env1) := by
  conv_lhs => unfold eval

theorem evalArgs_nil (env : RispEnv) : evalArgs [] env = (.ok [], env) := rfl

theorem evalArgs_cons (x : RispExp) (xs : List RispExp) (env : RispEnv) :
    evalArgs (x :: xs) env =
      match eval x env with
      | (.error e, env1) => (.error e, env1)
      | (.ok v, env1) =>
        match evalArgs xs env1 with
        | (.error e, env2) => (.error e, env2)
        | (.ok vs, env2) => (.ok (v :: vs), env2) := by
  conv_lhs => unfold evalArgs

/-! Helper lemmas about the float-coercion pass of the builtins. -/

theorem parse_single_float_err {x : RispExp} (h : isNumber x = false) :
    parse_single_float x = .error (.Reason "expected a number") := by
  cases x <;> simp_all [isNumber, parse_single_float]

theorem plf_map (fs : List F64) :
    parse_list_of_floats (fs.map .Number) = .ok fs := by
  induction fs with
  | nil => rfl
  | cons f fs ih =>
    simp [parse_list_of_floats, parse_single_float, ih, Bind.bind, Except.bind]

theorem plf_err :
    ∀ (args : List RispExp), (∃ x ∈ args, isNumber x = false) →
      parse_list_of_floats args = .error (.Reason "expected a number") := by
  intro args h
  induction args with
  | nil => simp at h
  | cons x xs ih =>
    rcases h with ⟨y, hy, hyn⟩
    rcases List.mem_cons.mp hy with h1 | h2
    · subst h1
      cases hx : isNumber y
      · simp [parse_list_of_floats, parse_single_float_err hx, Bind.bind, Except.bind]
      · rw [hx] at hyn; cases hyn
    · cases hx : isNumber x
      · simp [parse_list_of_floats, parse_single_float_err hx, Bind.bind, Except.bind]
      · cases x <;> simp [isNumber] at hx
        simp [parse_list_of_floats, parse_single_float, Bind.bind, Except.bind,
          ih ⟨y, h2, hyn⟩]

/-- C3: the builtin `+` fails with `expected a number` when some argument
is not a `Number`; on all-numeric arguments it returns the fold of
addition over the values starting from `0.0`, and with zero arguments it
succeeds with `Number 0`. -/
theorem plus_spec :
    default_env.get "+" = some (.Func .addF) ∧
    (∀ args, applyFunc .addF args = plusFn args) ∧
    (∀ args, (∃ x ∈ args, isNumber x = false) →
      plusFn args = .error (.Reason "expected a number")) ∧
    (∀ fs : List F64,
      plusFn (fs.map .Number) = .ok (.Number (fs.foldl F64.add (.finite 0)))) ∧
    plusFn [] = .ok (.Number (.finite 0)) := by
  refine ⟨rfl, fun _ => rfl, ?_, ?_, rfl⟩
  · intro args h
    simp [plusFn, plf_err args h, Bind.bind, Except.bind]
  · intro fs
    simp [plusFn, plf_map, Bind.bind, Except.bind]

/-- C3 witness: `(+ true)` fails with `expected a number`. -/
theorem plus_spec_witness :
    plusFn [.Bool true] = .error (.Reason "expected a number") :=
  plus_spec.2.2.1 [.Bool true] ⟨.Bool true, List.mem_singleton_self _, rfl⟩

/-- C4: the builtin `-` fails on an empty argument list, and on all-numeric
arguments returns the first value minus the sum of the rest; a single
argument comes back unchanged. -/
theorem minus_spec :
    default_env.get "-" = some (.Func .subF) ∧
    (∀ args, applyFunc .subF args = minusFn args) ∧
    minusFn [] = .error (.Reason "expexted at least one number") ∧
    (∀ (f : F64) (rest : List F64),
      minusFn ((f :: rest).map .Number) =
        .ok (.Number (F64.sub f (rest.foldl F64.add (.finite 0))))) ∧
    (∀ f : F64, minusFn [.Number f] = .ok (.Number f)) := by
  refine ⟨rfl, fun _ => rfl, rfl, ?_, ?_⟩
  · intro f rest
    simp only [minusFn, Bind.bind, Except.bind, List.map_cons]
    rw [← List.map_cons, plf_map]
  · intro f
    have h1 : [RispExp.Number f] = List.map RispExp.Number [f] := rfl
    simp only [minusFn, Bind.bind, Except.bind, h1]
    rw [plf_map]
    cases f <;> simp [F64.sub, F64.neg, F64.add]

/-- Reading a run of plain atom tokens up to the closing parenthesis. -/
theorem read_seqOut_flat (ts : List String) : ∀ (res : List RispExp) (rest : List String),
    (∀ t ∈ ts, t ≠ "(" ∧ t ≠ ")") →
    read_seqOut res (ts ++ ")" :: rest) = .ok (.List (res ++ ts.map parse_atom), rest) := by
  induction ts with
  | nil => intro res rest _; simp [read_seqOut_close]
  | cons t ts ih =>
    intro res rest h
    obtain ⟨h1, h2⟩ := h t (List.mem_cons_self t ts)
    rw [List.cons_append, read_seqOut_cons _ _ _ h2, parseOut_atom _ _ h1 h2]
    simp only []
    rw [ih (res ++ [parse_atom t]) rest (fun u hu => h u (List.mem_cons_of_mem t hu))]
    simp

/-- Parsing one flat parenthesised list of atom tokens. -/
theorem parseOut_flat (ts : List String) (rest : List String)
    (h : ∀ t ∈ ts, t ≠ "(" ∧ t ≠ ")") :
    parseOut ("(" :: (ts ++ ")" :: rest)) = .ok (.List (ts.map parse_atom), rest) := by
  rw [parseOut_open, read_seqOut_flat ts [] rest h]
  simp

/-- C2: each comparison builtin fails on a non-numeric argument, fails with
`expected at least one number` on an empty argument list, and otherwise
returns `Bool true` iff its relation holds between every adjacent pair of
the numeric arguments (so one argument gives `true`, `(> 6 4 3 1)` is true
and `(> 6 4 3 4)` is false). -/
theorem comparison_spec :
    (default_env.get "=" = some (.Func .eqF) ∧ default_env.get ">" = some (.Func .gtF) ∧
     default_env.get "<" = some (.Func .ltF) ∧ default_env.get ">=" = some (.Func .geF) ∧
     default_env.get "<=" = some (.Func .leF)) ∧
    ((∀ args, applyFunc .eqF args = tonicity F64.beq args) ∧
     (∀ args, applyFunc .gtF args = tonicity F64.bgt args) ∧
     (∀ args, applyFunc .ltF args = tonicity F64.blt args) ∧
     (∀ args, applyFunc .geF args = tonicity F64.bge args) ∧
     (∀ args, applyFunc .leF args = tonicity F64.ble args)) ∧
    (∀ (check : F64 → F64 → Bool) args, (∃ x ∈ args, isNumber x = false) →
      tonicity check args = .error (.Reason "expected a number")) ∧
    (∀ (check : F64 → F64 → Bool),
      tonicity check [] = .error (.Reason "expected at least one number")) ∧
    (∀ (check : F64 → F64 → Bool) (f : F64) (rest : List F64),
      tonicity check ((f :: rest).map .Number) =
        .ok (.Bool (tonicityChain check f rest))) ∧
    (∀ (check : F64 → F64 → Bool) (f : F64) (rest : List F64),
      tonicityChain check f rest = true ↔
        List.Chain (fun a b => check a b = true) f rest) ∧
    (∀ (check : F64 → F64 → Bool) (f : F64), tonicity check [.Number f] = .ok (.Bool true)) ∧
    parse_and_eval "(> 6 4 3 1)" default_env = (.ok (.Bool true), default_env) ∧
    parse_and_eval "(> 6 4 3 4)" default_env = (.ok (.Bool false), default_env) := by
  refine ⟨⟨rfl, rfl, rfl, rfl, rfl⟩, ⟨fun _ => rfl, fun _ => rfl, fun _ => rfl,
    fun _ => rfl, fun _ => rfl⟩, ?_, fun _ => rfl, ?_, ?_, fun _ _ => rfl, ?_, ?_⟩
  · intro check args h
    simp [tonicity, plf_err args h, Bind.bind, Except.bind]
  · intro check f rest
    simp only [tonicity, Bind.bind, Except.bind, List.map_cons]
    rw [← List.map_cons, plf_map]
  · intro check f rest
    induction rest generalizing f with
    | nil => simp [tonicityChain]
    | cons x xs ih => simp [tonicityChain, List.chain_cons, ih, Bool.and_eq_true]
  · rw [parse_and_eval_eq]
    have ht : tokenize "(> 6 4 3 1)" = "(" :: ([">", "6", "4", "3", "1"] ++ ")" :: []) := by
      decide
    rw [ht, parseOut_flat _ _ (by decide)]
    rfl
  · rw [parse_and_eval_eq]
    have ht : tokenize "(> 6 4 3 4)" = "(" :: ([">", "6", "4", "3", "4"] ++ ")" :: []) := by
      decide
    rw [ht, parseOut_flat _ _ (by decide)]
    rfl

/-- C2 witness: `(< true)` fails with `expected a number`. -/
theorem comparison_spec_witness :
    tonicity F64.blt [.Bool true] = .error (.Reason "expected a number") :=
  comparison_spec.2.2.1 F64.blt [.Bool true] ⟨.Bool true, List.mem_singleton_self _, rfl⟩

/-- C6: evaluating a `Symbol` looks the name up in the environment,
returning a copy of the bound value, and fails with
`unexpected symbol k='<name>'` when the name is absent (so the unbound
symbol `foo` fails with an error naming `foo`). -/
theorem symbol_lookup_spec :
    (∀ (k : String) (env : RispEnv) (v : RispExp),
      env.get k = some v → eval (.Symbol k) env = (.ok v, env)) ∧
    (∀ (k : String) (env : RispEnv), env.get k = none →
      eval (.Symbol k) env =
        (.error (.Reason ("unexpected symbol k='" ++ k ++ "'")), env)) ∧
    eval (.Symbol "foo") default_env =
      (.error (.Reason "unexpected symbol k='foo'"), default_env) := by
  refine ⟨?_, ?_, rfl⟩
  · intro k env v h
    rw [eval_symbol, h]
  · intro k env h
    rw [eval_symbol, h]

/-- C6 witness: the bound symbol `+` evaluates to the installed builtin. -/
theorem symbol_lookup_spec_witness :
    eval (.Symbol "+") default_env = (.ok (.Func .addF), default_env) :=
  symbol_lookup_spec.1 "+" default_env (.Func .addF) rfl

/-- C9 counterexample: the error message for a leading close paren is the
source's misspelt `unexpexted ')'`, not the claimed `unexpected ')'`. -/
theorem parse_close_message_counterexample :
    parseOut [")"] = .error (.Reason "unexpexted ')'") ∧
    parseOut [")"] ≠ .error (.Reason "unexpected ')'") := by
  refine ⟨parseOut_close [], ?_⟩
  rw [parseOut_close]
  intro h
  simp only [Except.error.injEq, RispErr.Reason.injEq] at h
  exact absurd h (by decide)

/-- C9 amended: a token sequence beginning with `)` makes `parse` fail
immediately, with the error spelt exactly `unexpexted ')'` as in the
source. -/
theorem parse_close_paren_amended (rest : List String) :
    parseOut (")" :: rest) = .error (.Reason "unexpexted ')'") :=
  parseOut_close rest

/-- C1: on a non-empty list, `eval` first evaluates the head: a head error
propagates; a non-`Func` head value fails with
`first form must be a function`; with a `Func` head the remaining elements
are evaluated left-to-right by `evalArgs`, whose first error propagates
without touching the rest (the builtin never runs on a partial argument
list), and on success the builtin's result or error is returned
unchanged. -/
theorem eval_call_spec :
    (∀ (h : RispExp) (t : List RispExp) (env : RispEnv) (err : RispErr) (env1 : RispEnv),
      eval h env = (.error err, env1) →
      eval (.List (h :: t)) env = (.error err, env1)) ∧
    (∀ (h : RispExp) (t : List RispExp) (env : RispEnv) (v : RispExp) (env1 : RispEnv),
      eval h env = (.ok v, env1) → isFunc v = false →
      eval (.List (h :: t)) env =
        (.error (.Reason "first form must be a function"), env1)) ∧
    (∀ (h : RispExp) (t : List RispExp) (env : RispEnv) (f : RispFunc) (env1 : RispEnv),
      eval h env = (.ok (.Func f), env1) →
      eval (.List (h :: t)) env =
        (match evalArgs t env1 with
         | (.error e, env2) => (.error e, env2)
         | (.ok args, env2) => (applyFunc f args, env2))) ∧
    (∀ (x : RispExp) (xs : List RispExp) (env : RispEnv) (err : RispErr) (env1 : RispEnv),
      eval x env = (.error err, env1) →
      evalArgs (x :: xs) env = (.error err, env1)) ∧
    (∀ (x : RispExp) (xs : List RispExp) (env : RispEnv) (v : RispExp) (env1 : RispEnv),
      eval x env = (.ok v, env1) →
      evalArgs (x :: xs) env =
        (match evalArgs xs env1 with
         | (.error e, env2) => (.error e, env2)
         | (.ok vs, env2) => (.ok (v :: vs), env2))) := by
  refine ⟨?_, ?_, ?_, ?_, ?_⟩
  · intro h t env err env1 he
    rw [eval_list_cons, he]
  · intro h t env v env1 he hv
    rw [eval_list_cons, he]
    cases v <;> simp [isFunc] at hv ⊢
  · intro h t env f env1 he
    rw [eval_list_cons, he]
  · intro x xs env err env1 he
    rw [evalArgs_cons, he]
  · intro x xs env v env1 he
    rw [evalArgs_cons, he]

/-- C1 witness: in `(+ 1)` the head evaluates to the `+` builtin and the
call reduces to applying it to the evaluated arguments. -/
theorem eval_call_spec_witness :
    eval (.List [.Symbol "+", .Number (.finite 1)]) default_env =
      (match evalArgs [.Number (.finite 1)] default_env with
       | (.error e, env2) => (.error e, env2)
       | (.ok args, env2) => (applyFunc .addF args, env2)) :=
  eval_call_spec.2.2.1 (.Symbol "+") [.Number (.finite 1)] default_env .addF
    default_env rfl

/-- C10: any token other than `true`/`false` that the f64 parser accepts is
classified as a `Number`, never a `Symbol` — including the spellings
`inf`, `-inf`, `NaN`, `infinity` and exponent forms such as `1e3`. -/
theorem parse_atom_float_spec :
    (∀ (t : String) (v : F64), t ≠ "true" → t ≠ "false" → parseF64 t = some v →
      parse_atom t = .Number v) ∧
    parse_atom "inf" = .Number .inf ∧
    parse_atom "-inf" = .Number .neginf ∧
    parse_atom "NaN" = .Number .nan ∧
    parse_atom "infinity" = .Number .inf ∧
    parse_atom "1e3" = .Number (.finite 1000) ∧
    (∀ (t s : String), parse_atom t = .Symbol s → parseF64 t = none) := by
  refine ⟨?_, rfl, rfl, rfl, rfl, ?_, ?_⟩
  · intro t v h1 h2 h3
    simp [parse_atom, h1, h2, h3]
  · simp [parse_atom, parseF64, parseF64Core, parseExpPart, digitsToNat]
    norm_num
  · intro t s h
    by_cases h1 : t = "true"
    · simp [parse_atom, h1] at h
    · by_cases h2 : t = "false"
      · simp [parse_atom, h1, h2] at h
      · cases hp : parseF64 t with
        | none => rfl
        | some v => simp [parse_atom, h1, h2, hp] at h

/-- C10 witness: the token `7` parses as an f64 and is classified as the
number 7. -/
theorem parse_atom_float_spec_witness :
    ("7" ≠ "true") ∧ ("7" ≠ "false") ∧ parseF64 "7" = some (.finite 7) ∧
      parse_atom "7" = .Number (.finite 7) :=
  ⟨by decide, by decide, rfl,
    parse_atom_float_spec.1 "7" (.finite 7) (by decide) (by decide) rfl⟩

/-- Both evaluation passes leave the threaded environment untouched. -/
theorem eval_env_frame :
    (∀ (e : RispExp) (env : RispEnv), (eval e env).2 = env) ∧
    (∀ (l : List RispExp) (env : RispEnv), (evalArgs l env).2 = env) := by
  have h := eval.mutual_induct (fun e env => (eval e env).2 = env)
    (fun l env => (evalArgs l env).2 = env)
  apply h
  · intro a env; rfl
  · intro k env x hk; simp only [eval_symbol, hk]
  · intro k env hk; simp only [eval_symbol, hk]
  · intro n env; rfl
  · intro env; rfl
  · intro env x xs e env1 hx ih1
    rw [eval_list_cons, hx]
    rw [hx] at ih1
    exact ih1
  · intro env x xs env1 a e env2 hargs hx ih1 ih2
    rw [eval_list_cons, hx]
    simp only [hargs]
    rw [hargs] at ih2
    rw [hx] at ih1
    exact ih2.trans ih1
  · intro env x xs env1 a args_eval env2 hargs hx ih1 ih2
    rw [eval_list_cons, hx]
    simp only [hargs]
    rw [hargs] at ih2
    rw [hx] at ih1
    exact ih2.trans ih1
  · intro env x xs first_eval env1 hx hne ih1
    rw [eval_list_cons, hx]
    rw [hx] at ih1
    cases first_eval with
    | Func a => exact absurd rfl (hne a)
    | Bool b => exact ih1
    | Symbol s => exact ih1
    | Number n => exact ih1
    | List l => exact ih1
  · intro a env; rfl
  · intro env; rfl
  · intro x xs env e env1 hx ih1
    rw [evalArgs_cons, hx]
    rw [hx] at ih1
    exact ih1
  · intro x xs env first_eval env1 hx e env2 hargs ih1 ih2
    rw [evalArgs_cons, hx]
    simp only [hargs]
    rw [hargs] at ih2
    rw [hx] at ih1
    exact ih2.trans ih1
  · intro x xs env first_eval env1 hx args_eval env2 hargs ih1 ih2
    rw [evalArgs_cons, hx]
    simp only [hargs]
    rw [hargs] at ih2
    rw [hx] at ih1
    exact ih2.trans ih1

/-- C5: evaluating any expression — directly or through `parse_and_eval` —
returns the environment unchanged, success or failure; only `default_env`
ever creates bindings. -/
theorem env_frame_spec :
    (∀ (e : RispExp) (env : RispEnv), (eval e env).2 = env) ∧
    (∀ (expr : String) (env : RispEnv), (parse_and_eval expr env).2 = env) := by
  refine ⟨eval_env_frame.1, ?_⟩
  intro expr env
  rw [parse_and_eval_eq]
  cases h : parseOut (tokenize expr) with
  | error e => rfl
  | ok p =>
    rcases p with ⟨exp, rest⟩
    simp only []
    exact eval_env_frame.1 exp env

/-! Conversions between the proof-carrying parser and its erased wrapper. -/

theorem parseOut_of_parse {xs : List String} {exp : RispExp} {r : List String}
    {h : r.length < xs.length} (hp : parse xs = .ok (exp, ⟨r, h⟩)) :
    parseOut xs = .ok (exp, r) := by
  unfold parseOut
  rw [hp]

theorem parseOut_of_parse_err {xs : List String} {e : RispErr}
    (hp : parse xs = .error e) : parseOut xs = .error e := by
  unfold parseOut
  rw [hp]

theorem read_seqOut_of_read_seq {res : List RispExp} {xs : List String}
    {exp : RispExp} {r : List String} {h : r.length < xs.length}
    (hp : read_seq res xs = .ok (exp, ⟨r, h⟩)) :
    read_seqOut res xs = .ok (exp, r) := by
  unfold read_seqOut
  rw [hp]

theorem read_seqOut_of_read_seq_err {res : List RispExp} {xs : List String}
    {e : RispErr} (hp : read_seq res xs = .error e) :
    read_seqOut res xs = .error e := by
  unfold read_seqOut
  rw [hp]

/-- Appending extra tokens after a parse that succeeds leaves the parsed
expression unchanged and appends the extra tokens to the leftovers. -/
theorem parse_append :
    (∀ (xs : List String), ∀ (s : List String) (e : RispExp) (r : List String),
      parseOut xs = .ok (e, r) → parseOut (xs ++ s) = .ok (e, r ++ s)) ∧
    (∀ (res : List RispExp) (xs : List String),
      ∀ (s : List String) (e : RispExp) (r : List String),
      read_seqOut res xs = .ok (e, r) → read_seqOut res (xs ++ s) = .ok (e, r ++ s)) := by
  have h := parse.mutual_induct
    (fun xs => ∀ (s : List String) (e : RispExp) (r : List String),
      parseOut xs = .ok (e, r) → parseOut (xs ++ s) = .ok (e, r ++ s))
    (fun res xs => ∀ (s : List String) (e : RispExp) (r : List String),
      read_seqOut res xs = .ok (e, r) → read_seqOut res (xs ++ s) = .ok (e, r ++ s))
  apply h
  · intro s e r hp
    rw [parseOut_nil] at hp
    cases hp
  · intro rest e herr _ s e' r hp
    rw [parseOut_open, read_seqOut_of_read_seq_err herr] at hp
    cases hp
  · intro rest exp r hr hok ih s e' r' hp
    rw [parseOut_open] at hp
    rw [List.cons_append, parseOut_open]
    exact ih s e' r' hp
  · intro rest _ s e r hp
    rw [parseOut_close] at hp
    cases hp
  · intro token rest h1 h2 s e r hp
    rw [parseOut_atom token rest h1 h2] at hp
    simp only [Except.ok.injEq, Prod.mk.injEq] at hp
    obtain ⟨he, hr⟩ := hp
    subst he; subst hr
    rw [List.cons_append, parseOut_atom token (rest ++ s) h1 h2]
  · intro res s e r hp
    rw [read_seqOut_nil] at hp
    cases hp
  · intro res rest s e r hp
    rw [read_seqOut_close] at hp
    simp only [Except.ok.injEq, Prod.mk.injEq] at hp
    obtain ⟨he, hr⟩ := hp
    subst he; subst hr
    rw [List.cons_append, read_seqOut_close]
  · intro res next_token rest hne e herr _ s e' r hp
    rw [read_seqOut_cons _ _ _ hne, parseOut_of_parse_err herr] at hp
    cases hp
  · intro res next_token rest hne exp new_xs hlen hok e herr ih1 ih2 s e' r hp
    rw [read_seqOut_cons _ _ _ hne, parseOut_of_parse hok] at hp
    simp only [] at hp
    rw [read_seqOut_of_read_seq_err herr] at hp
    cases hp
  · intro res next_token rest hne exp new_xs hlen hok exp1 r hr hok2 ih1 ih2 s e' r' hp
    rw [read_seqOut_cons _ _ _ hne, parseOut_of_parse hok] at hp
    simp only [] at hp
    rw [read_seqOut_of_read_seq hok2] at hp
    simp only [Except.ok.injEq, Prod.mk.injEq] at hp
    obtain ⟨he, hrr⟩ := hp
    subst he; subst hrr
    have hp1 := ih1 s exp new_xs (parseOut_of_parse hok)
    rw [List.cons_append] at hp1
    rw [List.cons_append, read_seqOut_cons _ _ _ hne, hp1]
    simp only []
    exact ih2 s exp1 r (read_seqOut_of_read_seq hok2)

/-- C8: `parse` consumes only the first complete expression — extra tokens
come back as uninterpreted leftovers — and `parse_and_eval` discards the
leftovers without error, so `(+ 1 2) garbage` evaluates to `3`. -/
theorem leftover_tokens_spec :
    (∀ (xs s : List String) (e : RispExp) (r : List String),
      parseOut xs = .ok (e, r) → parseOut (xs ++ s) = .ok (e, r ++ s)) ∧
    (∀ (expr : String) (env : RispEnv) (e : RispExp) (rest : List String),
      parseOut (tokenize expr) = .ok (e, rest) → parse_and_eval expr env = eval e env) ∧
    parse_and_eval "(+ 1 2) garbage" default_env =
      (.ok (.Number (.finite 3)), default_env) := by
  refine ⟨fun xs s e r h => parse_append.1 xs s e r h, ?_, ?_⟩
  · intro expr env e rest h
    rw [parse_and_eval_eq, h]
  · rw [parse_and_eval_eq]
    have ht : tokenize "(+ 1 2) garbage" =
        "(" :: (["+", "1", "2"] ++ ")" :: ["garbage"]) := by decide
    rw [ht, parseOut_flat _ _ (by decide)]
    simp only []
    have e1 : (["+", "1", "2"].map parse_atom) =
        [.Symbol "+", .Number (.finite 1), .Number (.finite 2)] := rfl
    rw [e1]
    have e2 : default_env.get "+" = some (.Func .addF) := rfl
    simp only [eval_list_cons, eval_symbol, evalArgs_cons, evalArgs_nil, eval_number, e2]
    norm_num [applyFunc, plusFn, parse_list_of_floats, parse_single_float, List.foldl,
      F64.add, Bind.bind, Except.bind]

/-- C8 witness: the leftover token `garbage` is returned by `parse` and
dropped by `parse_and_eval`. -/
theorem leftover_tokens_spec_witness :
    parseOut (tokenize "(+ 1 2) garbage") =
      .ok (.List [.Symbol "+", .Number (.finite 1), .Number (.finite 2)], ["garbage"]) ∧
    parse_and_eval "(+ 1 2) garbage" default_env =
      eval (.List [.Symbol "+", .Number (.finite 1), .Number (.finite 2)]) default_env := by
  have hp : parseOut (tokenize "(+ 1 2) garbage") =
      .ok (.List [.Symbol "+", .Number (.finite 1), .Number (.finite 2)], ["garbage"]) := by
    have ht : tokenize "(+ 1 2) garbage" =
        "(" :: (["+", "1", "2"] ++ ")" :: ["garbage"]) := by decide
    rw [ht, parseOut_flat _ _ (by decide)]
    rfl
  exact ⟨hp, leftover_tokens_spec.2.1 "(+ 1 2) garbage" default_env _ ["garbage"] hp⟩

/-- C7 counterexample: `(true false)` parses, but its rendering
`(true,false)` re-parses as a one-element list holding the symbol
`true,false`, so the structural nesting is not preserved. -/
theorem render_roundtrip_counterexample :
    parseOut (tokenize "(true false)") = .ok (.List [.Bool true, .Bool false], []) ∧
    renderExp (.List [.Bool true, .Bool false]) = "(true,false)" ∧
    parseOut (tokenize (renderExp (.List [.Bool true, .Bool false]))) =
      .ok (.List [.Symbol "true,false"], []) ∧
    shape (.List [.Symbol "true,false"]) ≠ shape (.List [.Bool true, .Bool false]) := by
  refine ⟨?_, rfl, ?_, ?_⟩
  · have ht : tokenize "(true false)" = "(" :: (["true", "false"] ++ ")" :: []) := by decide
    rw [ht, parseOut_flat _ _ (by decide)]
    rfl
  · have ht : tokenize (renderExp (.List [.Bool true, .Bool false])) =
        "(" :: (["true,false"] ++ ")" :: []) := by decide
    rw [ht, parseOut_flat _ _ (by decide)]
    rfl
  · intro h
    simp only [shape, shapeList, Shape.node.injEq] at h
    cases h

/-! Tokenizer algebra: splitting at an explicit space is concatenation,
safe strings tokenize to themselves, and wrapping in parentheses wraps
the token list. -/

theorem splitWsAux_space (a b : List Char) : ∀ acc,
    splitWsAux (a ++ ' ' :: b) acc = splitWsAux a acc ++ splitWs b := by
  induction a with
  | nil =>
    intro acc
    by_cases h : acc.isEmpty <;> simp [splitWsAux, splitWs, isRustWs, h]
  | cons c a ih =>
    intro acc
    cases hw : isRustWs c <;>
      simp only [List.cons_append, splitWsAux, hw, Bool.false_eq_true, reduceIte, ih] <;>
      by_cases ha : acc.isEmpty <;> simp [ha, ih]

theorem splitWs_space (a b : List Char) :
    splitWs (a ++ ' ' :: b) = splitWs a ++ splitWs b :=
  splitWsAux_space a b []

theorem splitWsAux_single (w : List Char) (hw : ∀ c ∈ w, safeChar c = true) :
    ∀ acc : List Char, acc.reverse ++ w ≠ [] →
    splitWsAux w acc = [String.mk (acc.reverse ++ w)] := by
  induction w with
  | nil =>
    intro acc hne
    have : ¬acc.isEmpty := by
      cases acc with
      | nil => simp at hne
      | cons c cs => simp
    simp [splitWsAux, this]
  | cons c w ih =>
    intro acc _
    have hc : safeChar c = true := hw c (List.mem_cons_self c w)
    have hcw : isRustWs c = false := by
      simp [safeChar, Bool.and_eq_true] at hc
      exact hc.1.1
    have hrec := ih (fun u hu => hw u (List.mem_cons_of_mem c hu)) (c :: acc) (by simp)
    simp only [splitWsAux, hcw, Bool.false_eq_true, reduceIte]
    rw [hrec]
    simp

theorem splitWs_single (w : List Char) (hne : w ≠ []) (hw : ∀ c ∈ w, safeChar c = true) :
    splitWs w = [String.mk w] := by
  have h := splitWsAux_single w hw [] (by simpa using hne)
  simpa [splitWs] using h

theorem pad_safe (l : List Char) (h : ∀ c ∈ l, safeChar c = true) :
    l.flatMap padChar = l := by
  induction l with
  | nil => rfl
  | cons c cs ih =>
    have hc := h c (List.mem_cons_self c cs)
    have h1 : ¬(c = '(') := by
      simp [safeChar, Bool.and_eq_true] at hc
      simp [hc.1.2]
    have h2 : ¬(c = ')') := by
      simp [safeChar, Bool.and_eq_true] at hc
      simp [hc.2]
    simp only [List.flatMap_cons, padChar, h1, h2, reduceIte]
    rw [ih (fun u hu => h u (List.mem_cons_of_mem c hu))]
    rfl

theorem tokenize_atomStr (s : String) (h : atomStrOk s = true) : tokenize s = [s] := by
  simp only [atomStrOk, Bool.and_eq_true, List.all_eq_true, Bool.not_eq_eq_eq_not,
    Bool.not_true, List.isEmpty_eq_false] at h
  obtain ⟨hne, hsafe⟩ := h
  unfold tokenize
  rw [pad_safe s.data hsafe, splitWs_single s.data hne hsafe]

theorem tokenize_paren_wrap (s : String) :
    tokenize ("(" ++ s ++ ")") = "(" :: tokenize s ++ [")"] := by
  unfold tokenize
  have hd : ("(" ++ s ++ ")").data = '(' :: (s.data ++ [')']) := by
    simp [String.data_append]
  rw [hd]
  have hpad : ('(' :: (s.data ++ [')'])).flatMap padChar =
      ' ' :: '(' :: ' ' :: (s.data.flatMap padChar ++ ' ' :: [')', ' ']) := by
    simp [List.flatMap_cons, List.flatMap_append, padChar]
  rw [hpad]
  have h1 : splitWs (' ' :: '(' :: ' ' :: (s.data.flatMap padChar ++ ' ' :: [')', ' '])) =
      "(" :: splitWs (s.data.flatMap padChar ++ ' ' :: [')', ' ']) := rfl
  rw [h1, splitWs_space]
  rfl

theorem isRustWs_space : isRustWs ' ' = true := rfl

theorem isRustWs_open : isRustWs '(' = false := rfl

theorem isRustWs_close : isRustWs ')' = false := rfl

theorem tokenOk_open : tokenOk "(" = true := rfl

theorem tokenOk_close : tokenOk ")" = true := rfl

theorem tokenOk_of_acc (acc : List Char) (h : ∀ c ∈ acc, safeChar c = true)
    (hne : ¬acc.isEmpty) : tokenOk (String.mk acc.reverse) = true := by
  have hrev : ∀ c ∈ acc.reverse, safeChar c = true := by
    intro c hc
    exact h c (List.mem_reverse.mp hc)
  have hne2 : acc.reverse ≠ [] := by
    intro hh
    apply hne
    have := congrArg List.reverse hh
    simp at this
    simp [this]
  simp [tokenOk, atomStrOk, List.all_eq_true, hrev, hne2]
  exact Or.inr h

/-- One-step unfolding of `splitWsAux` on a cons cell. -/
theorem splitWsAux_cons (c : Char) (cs : List Char) (acc : List Char) :
    splitWsAux (c :: cs) acc =
      if isRustWs c then
        (if acc.isEmpty then splitWsAux cs [] else String.mk acc.reverse :: splitWsAux cs [])
      else splitWsAux cs (c :: acc) := rfl

theorem splitWsAux_open_space (l : List Char) :
    splitWsAux ('(' :: ' ' :: l) [] = "(" :: splitWsAux l [] := by
  rw [splitWsAux_cons]
  simp only [isRustWs_open, Bool.false_eq_true, reduceIte]
  rw [splitWsAux_cons]
  simp [isRustWs_space]

theorem splitWsAux_close_space (l : List Char) :
    splitWsAux (')' :: ' ' :: l) [] = ")" :: splitWsAux l [] := by
  rw [splitWsAux_cons]
  simp only [isRustWs_close, Bool.false_eq_true, reduceIte]
  rw [splitWsAux_cons]
  simp [isRustWs_space]

/-- Every token produced by splitting a padded character list is a
parenthesis or a safe atom string. -/
theorem splitWsAux_pad_ok : ∀ (l : List Char) (acc : List Char),
    (∀ c ∈ acc, safeChar c = true) →
    ∀ t ∈ splitWsAux (l.flatMap padChar) acc, tokenOk t = true := by
  intro l
  induction l with
  | nil =>
    intro acc hacc t ht
    by_cases ha : acc.isEmpty
    · simp [splitWsAux, ha] at ht
    · rw [Bool.not_eq_true] at ha
      simp only [List.flatMap_nil, splitWsAux, ha, Bool.false_eq_true, reduceIte,
        List.mem_singleton] at ht
      subst ht
      exact tokenOk_of_acc acc hacc (by simp [ha])
  | cons c l ih =>
    intro acc hacc t ht
    by_cases hp1 : c = '('
    · subst hp1
      have hpad : (('(' : Char) :: l).flatMap padChar =
          ' ' :: '(' :: ' ' :: l.flatMap padChar := by
        simp [List.flatMap_cons, padChar]
      rw [hpad, splitWsAux_cons] at ht
      simp only [isRustWs_space, reduceIte] at ht
      by_cases ha : acc.isEmpty
      · rw [if_pos ha, splitWsAux_open_space] at ht
        rcases List.mem_cons.mp ht with h1 | h2
        · subst h1; exact tokenOk_open
        · exact ih [] (by simp) t h2
      · rw [if_neg ha, splitWsAux_open_space] at ht
        rcases List.mem_cons.mp ht with h1 | h2
        · subst h1; exact tokenOk_of_acc acc hacc ha
        · rcases List.mem_cons.mp h2 with h3 | h4
          · subst h3; exact tokenOk_open
          · exact ih [] (by simp) t h4
    · by_cases hp2 : c = ')'
      · subst hp2
        have hpad : ((')' : Char) :: l).flatMap padChar =
            ' ' :: ')' :: ' ' :: l.flatMap padChar := by
          simp [List.flatMap_cons, padChar]
        rw [hpad, splitWsAux_cons] at ht
        simp only [isRustWs_space, reduceIte] at ht
        by_cases ha : acc.isEmpty
        · rw [if_pos ha, splitWsAux_close_space] at ht
          rcases List.mem_cons.mp ht with h1 | h2
          · subst h1; exact tokenOk_close
          · exact ih [] (by simp) t h2
        · rw [if_neg ha, splitWsAux_close_space] at ht
          rcases List.mem_cons.mp ht with h1 | h2
          · subst h1; exact tokenOk_of_acc acc hacc ha
          · rcases List.mem_cons.mp h2 with h3 | h4
            · subst h3; exact tokenOk_close
            · exact ih [] (by simp) t h4
      · have hpad : (c :: l).flatMap padChar = c :: l.flatMap padChar := by
          simp [List.flatMap_cons, padChar, hp1, hp2]
        rw [hpad, splitWsAux_cons] at ht
        by_cases hw : isRustWs c
        · rw [if_pos hw] at ht
          by_cases ha : acc.isEmpty
          · rw [if_pos ha] at ht
            exact ih [] (by simp) t ht
          · rw [if_neg ha] at ht
            rcases List.mem_cons.mp ht with h1 | h2
            · subst h1; exact tokenOk_of_acc acc hacc ha
            · exact ih [] (by simp) t h2
        · have hsafe : safeChar c = true := by
            simp [safeChar, hp1, hp2, hw]
          rw [if_neg hw] at ht
          refine ih (c :: acc) ?_ t ht
          intro u hu
          rcases List.mem_cons.mp hu with h1 | h2
          · subst h1; exact hsafe
          · exact hacc u h2

theorem tokenize_ok (s : String) : ∀ t ∈ tokenize s, tokenOk t = true := by
  intro t ht
  exact splitWsAux_pad_ok s.data [] (by simp) t ht

/-- The leftover tokens of a successful parse are a sub-collection of the
input tokens. -/
theorem parse_subset :
    (∀ (xs : List String), ∀ (e : RispExp) (r : List String),
      parseOut xs = .ok (e, r) → r ⊆ xs) ∧
    (∀ (res : List RispExp) (xs : List String), ∀ (e : RispExp) (r : List String),
      read_seqOut res xs = .ok (e, r) → r ⊆ xs) := by
  have h := parse.mutual_induct
    (fun xs => ∀ (e : RispExp) (r : List String), parseOut xs = .ok (e, r) → r ⊆ xs)
    (fun res xs => ∀ (e : RispExp) (r : List String),
      read_seqOut res xs = .ok (e, r) → r ⊆ xs)
  apply h
  · intro e r hp
    rw [parseOut_nil] at hp
    cases hp
  · intro rest e herr _ e' r hp
    rw [parseOut_open, read_seqOut_of_read_seq_err herr] at hp
    cases hp
  · intro rest exp r hr hok ih e' r' hp
    rw [parseOut_open] at hp
    exact (ih e' r' hp).trans (List.subset_cons_self _ _)
  · intro rest _ e r hp
    rw [parseOut_close] at hp
    cases hp
  · intro token rest h1 h2 e r hp
    rw [parseOut_atom token rest h1 h2] at hp
    simp only [Except.ok.injEq, Prod.mk.injEq] at hp
    rw [← hp.2]
    exact List.subset_cons_self _ _
  · intro res e r hp
    rw [read_seqOut_nil] at hp
    cases hp
  · intro res rest e r hp
    rw [read_seqOut_close] at hp
    simp only [Except.ok.injEq, Prod.mk.injEq] at hp
    rw [← hp.2]
    exact List.subset_cons_self _ _
  · intro res next_token rest hne e herr _ e' r hp
    rw [read_seqOut_cons _ _ _ hne, parseOut_of_parse_err herr] at hp
    cases hp
  · intro res next_token rest hne exp new_xs hlen hok e herr ih1 ih2 e' r hp
    rw [read_seqOut_cons _ _ _ hne, parseOut_of_parse hok] at hp
    simp only [] at hp
    rw [read_seqOut_of_read_seq_err herr] at hp
    cases hp
  · intro res next_token rest hne exp new_xs hlen hok exp1 r hr hok2 ih1 ih2 e' r' hp
    rw [read_seqOut_cons _ _ _ hne, parseOut_of_parse hok] at hp
    simp only [] at hp
    rw [read_seqOut_of_read_seq hok2] at hp
    simp only [Except.ok.injEq, Prod.mk.injEq] at hp
    rw [← hp.2]
    exact (ih2 exp1 r (read_seqOut_of_read_seq hok2)).trans
      (ih1 exp new_xs (parseOut_of_parse hok))

theorem goodAtomsList_append (a : List RispExp) (x : RispExp) :
    goodAtomsList (a ++ [x]) = (goodAtomsList a && goodAtoms x) := by
  induction a with
  | nil => simp [goodAtomsList, goodAtoms]
  | cons y ys ih => simp [goodAtomsList, ih, Bool.and_assoc]

theorem goodAtoms_parse_atom (t : String) (h : tokenOk t = true)
    (h1 : t ≠ "(") (h2 : t ≠ ")") : goodAtoms (parse_atom t) = true := by
  have h3 : atomStrOk t = true := by
    simp [tokenOk, h1, h2] at h
    exact h
  unfold parse_atom
  by_cases ht : t = "true"
  · simp [ht, goodAtoms]
  · by_cases hf : t = "false"
    · simp [ht, hf, goodAtoms]
    · simp only [ht, hf, reduceIte]
      cases hp : parseF64 t with
      | some v => simp [goodAtoms]
      | none => simpa [goodAtoms] using h3

/-- On well-formed tokens, a successful parse yields an expression whose
symbols are all safe single tokens and which contains no `Func`. -/
theorem parse_good :
    (∀ (xs : List String), (∀ t ∈ xs, tokenOk t = true) →
      ∀ (e : RispExp) (r : List String), parseOut xs = .ok (e, r) → goodAtoms e = true) ∧
    (∀ (res : List RispExp) (xs : List String), (∀ t ∈ xs, tokenOk t = true) →
      goodAtomsList res = true →
      ∀ (e : RispExp) (r : List String), read_seqOut res xs = .ok (e, r) →
        goodAtoms e = true) := by
  have h := parse.mutual_induct
    (fun xs => (∀ t ∈ xs, tokenOk t = true) →
      ∀ (e : RispExp) (r : List String), parseOut xs = .ok (e, r) → goodAtoms e = true)
    (fun res xs => (∀ t ∈ xs, tokenOk t = true) → goodAtomsList res = true →
      ∀ (e : RispExp) (r : List String), read_seqOut res xs = .ok (e, r) →
        goodAtoms e = true)
  apply h
  · intro _ e r hp
    rw [parseOut_nil] at hp
    cases hp
  · intro rest e herr _ _ e' r hp
    rw [parseOut_open, read_seqOut_of_read_seq_err herr] at hp
    cases hp
  · intro rest exp r hr hok ih htok e' r' hp
    rw [parseOut_open] at hp
    exact ih (fun t ht => htok t (List.mem_cons_of_mem _ ht)) rfl e' r' hp
  · intro rest _ _ e r hp
    rw [parseOut_close] at hp
    cases hp
  · intro token rest h1 h2 htok e r hp
    rw [parseOut_atom token rest h1 h2] at hp
    simp only [Except.ok.injEq, Prod.mk.injEq] at hp
    rw [← hp.1]
    exact goodAtoms_parse_atom token (htok token (List.mem_cons_self _ _)) h1 h2
  · intro res _ _ e r hp
    rw [read_seqOut_nil] at hp
    cases hp
  · intro res rest _ hres e r hp
    rw [read_seqOut_close] at hp
    simp only [Except.ok.injEq, Prod.mk.injEq] at hp
    rw [← hp.1]
    simpa [goodAtoms] using hres
  · intro res next_token rest hne e herr _ _ _ e' r hp
    rw [read_seqOut_cons _ _ _ hne, parseOut_of_parse_err herr] at hp
    cases hp
  · intro res next_token rest hne exp new_xs hlen hok e herr ih1 ih2 _ _ e' r hp
    rw [read_seqOut_cons _ _ _ hne, parseOut_of_parse hok] at hp
    simp only [] at hp
    rw [read_seqOut_of_read_seq_err herr] at hp
    cases hp
  · intro res next_token rest hne exp new_xs hlen hok exp1 r hr hok2 ih1 ih2 htok hres e' r' hp
    rw [read_seqOut_cons _ _ _ hne, parseOut_of_parse hok] at hp
    simp only [] at hp
    have hexp : goodAtoms exp = true :=
      ih1 htok exp new_xs (parseOut_of_parse hok)
    have hsub : new_xs ⊆ next_token :: rest :=
      parse_subset.1 (next_token :: rest) exp new_xs (parseOut_of_parse hok)
    have htok2 : ∀ t ∈ new_xs, tokenOk t = true := fun t ht => htok t (hsub ht)
    have hres2 : goodAtomsList (res ++ [exp]) = true := by
      rw [goodAtomsList_append, hres, hexp]
      rfl
    exact ih2 htok2 hres2 e' r' hp

/-! Safety of the number renderer: every character it emits is a digit,
sign or dot, hence safe for the tokenizer. -/

theorem safeChar_digit (n : Nat) (h : n < 10) : safeChar (digitCharOf n) = true := by
  interval_cases n <;> decide

theorem natToCharsAux_safe (fuel : Nat) : ∀ (n : Nat),
    ∀ c ∈ natToCharsAux fuel n, safeChar c = true := by
  induction fuel with
  | zero => intro n c hc; simp [natToCharsAux] at hc
  | succ fuel ih =>
    intro n c hc
    by_cases h : n < 10
    · simp only [natToCharsAux, h, reduceIte, List.mem_singleton] at hc
      subst hc
      exact safeChar_digit n h
    · simp only [natToCharsAux, h, reduceIte, List.mem_append, List.mem_singleton] at hc
      rcases hc with h1 | h2
      · exact ih (n / 10) c h1
      · subst h2
        exact safeChar_digit (n % 10) (Nat.mod_lt n (by omega))

theorem natToChars_ne_nil (n : Nat) : natToChars n ≠ [] := by
  unfold natToChars natToCharsAux
  by_cases h : n < 10 <;> simp [h]

theorem fracDigits_safe (fuel : Nat) : ∀ (q : ℚ), 0 ≤ q → q < 1 →
    ∀ c ∈ fracDigits fuel q, safeChar c = true := by
  induction fuel with
  | zero => intro q _ _ c hc; simp [fracDigits] at hc
  | succ fuel ih =>
    intro q h0 h1 c hc
    by_cases hz : q = 0
    · simp [fracDigits, hz] at hc
    · simp only [fracDigits, hz, reduceIte, List.mem_cons] at hc
      have h10 : (0:ℚ) ≤ q * 10 := by positivity
      have h10b : q * 10 < 10 := by nlinarith
      have hfl : ((q * 10).floor : ℤ) = ⌊q * 10⌋ := rfl
      rcases hc with hc1 | hc2
      · subst hc1
        apply safeChar_digit
        have hle : ⌊q * 10⌋ < 10 := by
          rw [Int.floor_lt]
          exact_mod_cast h10b
        rw [hfl]
        omega
      · refine ih (q * 10 - ((q * 10).floor : ℚ)) ?_ ?_ c hc2
        · rw [hfl]
          have := Int.floor_le (q * 10)
          linarith
        · rw [hfl]
          have := Int.lt_floor_add_one (q * 10)
          linarith

theorem renderRat_ok (q : ℚ) : atomStrOk (renderRat q) = true := by
  unfold renderRat
  set a := if q < 0 then -q else q with ha
  have ha0 : 0 ≤ a := by
    rw [ha]
    by_cases h : q < 0 <;> simp [h] <;> linarith
  have hfr0 : (0:ℚ) ≤ a - (a.floor : ℚ) := by
    have : ((a.floor : ℤ) : ℚ) ≤ a := Int.floor_le a
    linarith
  have hfr1 : a - (a.floor : ℚ) < 1 := by
    have : a < (a.floor : ℤ) + 1 := Int.lt_floor_add_one a
    push_cast at this
    linarith
  have hsafe := fracDigits_safe 1200 (a - (a.floor : ℚ)) hfr0 hfr1
  have hmid := natToCharsAux_safe (a.floor.toNat + 1) a.floor.toNat
  simp only [atomStrOk, Bool.and_eq_true, List.all_eq_true]
  constructor
  · simp only [String.data_append, Bool.not_eq_true', List.isEmpty_eq_false]
    intro hcon
    rcases List.append_eq_nil.mp hcon with ⟨h12, h3⟩
    rcases List.append_eq_nil.mp h12 with ⟨h1, h2⟩
    exact natToChars_ne_nil a.floor.toNat h2
  · intro c hc
    simp only [String.data_append, List.mem_append] at hc
    rcases hc with (hc1 | hc2) | hc3
    · by_cases hq : q < 0
      · simp only [hq, reduceIte] at hc1
        have : c = '-' := by simpa using hc1
        subst this
        decide
      · simp only [hq, reduceIte] at hc1
        simp at hc1
    · exact hmid c (by simpa [natToChars, String.mk] using hc2)
    · by_cases hd : (fracDigits 1200 (a - (a.floor : ℚ))).isEmpty
      · simp only [hd, reduceIte] at hc3
        simp at hc3
      · simp only [hd, reduceIte, String.data_append] at hc3
        rcases (by simpa using hc3 :
            c = '.' ∨ c ∈ fracDigits 1200 (a - (a.floor : ℚ))) with h1 | h2
        · subst h1
          decide
        · exact hsafe c h2

theorem renderF64_ok (v : F64) : atomStrOk (renderF64 v) = true := by
  cases v with
  | finite q => exact renderRat_ok q
  | inf => decide
  | neginf => decide
  | nan => decide

theorem shape_parse_atom (t : String) : shape (parse_atom t) = .leaf := by
  unfold parse_atom
  by_cases h1 : t = "true"
  · simp [h1, shape]
  · by_cases h2 : t = "false"
    · simp [h1, h2, shape]
    · simp only [h1, h2, reduceIte]
      cases parseF64 t <;> simp [shape]

theorem atomStrOk_ne_parens {s : String} (h : atomStrOk s = true) :
    s ≠ "(" ∧ s ≠ ")" := by
  constructor
  · intro hh; subst hh; cases h
  · intro hh; subst hh; cases h

/-- The heart of the amended round-trip: an expression from the parser
(safe symbols, no `Func`) whose lists all have at most one element renders
to a token run that re-parses to an expression of the same shape, leaving
any following tokens untouched. -/
theorem roundtrip_aux :
    (∀ e : RispExp, goodAtoms e = true → smallLists e = true →
      ∀ rest, ∃ e', parseOut (tokenize (renderExp e) ++ rest) = .ok (e', rest) ∧
        shape e' = shape e) ∧
    (∀ l : List RispExp, ∀ x ∈ l, goodAtoms x = true → smallLists x = true →
      ∀ rest, ∃ e', parseOut (tokenize (renderExp x) ++ rest) = .ok (e', rest) ∧
        shape e' = shape x) := by
  have h := renderExp.mutual_induct
    (fun e => goodAtoms e = true → smallLists e = true →
      ∀ rest, ∃ e', parseOut (tokenize (renderExp e) ++ rest) = .ok (e', rest) ∧
        shape e' = shape e)
    (fun l => ∀ x ∈ l, goodAtoms x = true → smallLists x = true →
      ∀ rest, ∃ e', parseOut (tokenize (renderExp x) ++ rest) = .ok (e', rest) ∧
        shape e' = shape x)
  apply h
  · intro _ _ rest
    refine ⟨.Bool true, ?_, rfl⟩
    have ht : tokenize (renderExp (.Bool true)) = ["true"] := by decide
    rw [ht, List.cons_append, List.nil_append,
      parseOut_atom _ _ (by decide) (by decide)]
    rfl
  · intro a hna _ _ rest
    have ha : a = false := by
      cases a
      · rfl
      · exact absurd rfl hna
    subst ha
    refine ⟨.Bool false, ?_, rfl⟩
    have ht : tokenize (renderExp (.Bool false)) = ["false"] := by decide
    rw [ht, List.cons_append, List.nil_append,
      parseOut_atom _ _ (by decide) (by decide)]
    rfl
  · intro s hga _ rest
    have hok : atomStrOk s = true := by simpa [goodAtoms] using hga
    obtain ⟨h1, h2⟩ := atomStrOk_ne_parens hok
    refine ⟨parse_atom s, ?_, ?_⟩
    · have ht : tokenize (renderExp (.Symbol s)) = [s] := tokenize_atomStr s hok
      rw [ht, List.cons_append, List.nil_append, parseOut_atom _ _ h1 h2]
    · rw [shape_parse_atom]
      rfl
  · intro n _ _ rest
    have hok : atomStrOk (renderF64 n) = true := renderF64_ok n
    obtain ⟨h1, h2⟩ := atomStrOk_ne_parens hok
    refine ⟨parse_atom (renderF64 n), ?_, ?_⟩
    · have ht : tokenize (renderExp (.Number n)) = [renderF64 n] :=
        tokenize_atomStr (renderF64 n) hok
      rw [ht, List.cons_append, List.nil_append, parseOut_atom _ _ h1 h2]
    · rw [shape_parse_atom]
      rfl
  · intro list ih hga hsm rest
    cases list with
    | nil =>
      refine ⟨.List [], ?_, rfl⟩
      have ht : tokenize (renderExp (.List [])) = ["(", ")"] := by decide
      rw [ht]
      simp only [List.cons_append, List.nil_append]
      rw [parseOut_open, read_seqOut_close]
    | cons x xs =>
      cases xs with
      | nil =>
        have hgx : goodAtoms x = true := by
          simpa [goodAtoms, goodAtomsList, Bool.and_eq_true] using hga
        have hsx : smallLists x = true := by
          simp only [smallLists, smallListsList, Bool.and_eq_true] at hsm
          exact hsm.2.1
        obtain ⟨x', hx1, hx2⟩ := ih x (List.mem_cons_self x []) hgx hsx (")" :: rest)
        have ht : tokenize (renderExp (.List [x])) =
            "(" :: tokenize (renderExp x) ++ [")"] := by
          have hr : renderExp (.List [x]) = "(" ++ renderExp x ++ ")" := rfl
          rw [hr, tokenize_paren_wrap]
        refine ⟨.List [x'], ?_, ?_⟩
        · rw [ht]
          have hassoc : ("(" :: tokenize (renderExp x) ++ [")"]) ++ rest =
              "(" :: (tokenize (renderExp x) ++ (")" :: rest)) := by
            simp
          rw [hassoc, parseOut_open]
          cases hT : tokenize (renderExp x) with
          | nil =>
            rw [hT, List.nil_append] at hx1
            rw [parseOut_close] at hx1
            cases hx1
          | cons t0 ts =>
            have ht0 : t0 ≠ ")" := by
              intro hh
              subst hh
              rw [hT, List.cons_append, parseOut_close] at hx1
              cases hx1
            rw [List.cons_append, read_seqOut_cons _ _ _ ht0]
            rw [hT, List.cons_append] at hx1
            rw [hx1]
            simp only [List.nil_append]
            rw [read_seqOut_close]
        · simp [shape, shapeList, hx2]
      | cons y ys =>
        exfalso
        simp [smallLists, smallListsList] at hsm
  · intro a hga _ _
    cases hga
  · intro x hx
    simp at hx
  · intro x xs hx hxs x' hx'
    rcases List.mem_cons.mp hx' with h1 | h2
    · subst h1; exact hx
    · exact hxs x' h2

/-- C7 amended: for an input line whose tokenization parses, if every list
of the parsed expression has at most one element, then rendering and
re-parsing preserves the structural nesting (with two or more elements the
comma-joined rendering merges adjacent atoms into one token and the claim
fails, as the counterexample shows). -/
theorem render_roundtrip_amended :
    ∀ (expr : String) (e : RispExp) (rest : List String),
      parseOut (tokenize expr) = .ok (e, rest) → smallLists e = true →
      ∃ e', parseOut (tokenize (renderExp e)) = .ok (e', []) ∧ shape e' = shape e := by
  intro expr e rest hp hs
  have hgood : goodAtoms e = true :=
    parse_good.1 (tokenize expr) (tokenize_ok expr) e rest hp
  obtain ⟨e', h1, h2⟩ := roundtrip_aux.1 e hgood hs []
  rw [List.append_nil] at h1
  exact ⟨e', h1, h2⟩

/-- C7 witness: the line `(a)` parses, its lists are small, and rendering
then re-parsing preserves the shape. -/
theorem render_roundtrip_amended_witness :
    parseOut (tokenize "(a)") = .ok (.List [.Symbol "a"], []) ∧
    smallLists (.List [.Symbol "a"]) = true ∧
    ∃ e', parseOut (tokenize (renderExp (.List [.Symbol "a"]))) = .ok (e', []) ∧
      shape e' = shape (.List [.Symbol "a"]) := by
  have hp : parseOut (tokenize "(a)") = .ok (.List [.Symbol "a"], []) := by
    have ht : tokenize "(a)" = "(" :: (["a"] ++ ")" :: []) := by decide
    rw [ht, parseOut_flat _ _ (by decide)]
    rfl
  exact ⟨hp, rfl, render_roundtrip_amended "(a)" (.List [.Symbol "a"]) [] hp rfl⟩
